import Mathlib

/-!
Verification of the core subsystems of the `ipynb_ast` repository:
the MIME-bundle classifier/selector (`src/mime-types.ts`) and the generic
tree walker (`src/transformer.ts`).  Each definition is a shallow embedding
of the corresponding TypeScript function; theorems settle the specification
claims about them.
-/

namespace Ipynb

/-! ## String helpers

JavaScript's `String.prototype.startsWith` / `endsWith` on the code-point
level, modelled over the character list of a Lean `String`. -/

/-- Model of JS `s.startsWith(p)`. -/
def jsStartsWith (s p : String) : Bool :=
  p.data.isPrefixOf s.data

/-- Model of JS `s.endsWith(p)`. -/
def jsEndsWith (s p : String) : Bool :=
  p.data.isSuffixOf s.data

/-! ## MIME type constants (src/mime-types.ts)

The TypeScript source stores the individual MIME strings in `as const`
record objects (`TEXT_MIME_TYPES.PLAIN = 'text/plain'`, ...) and builds the
category lists from them; here the lists carry the resolved string values. -/

/-- Source `TEXT_CONTENT_TYPES` from src/mime-types.ts: MIME types that represent
text content. -/
def TEXT_CONTENT_TYPES : List String :=
  [ "text/plain"
  , "text/html"
  , "text/markdown"
  , "text/latex"
  , "text/csv"
  , "text/xml"
  , "application/javascript"
  , "image/svg+xml" ]

/-- Source `BINARY_CONTENT_TYPES` from src/mime-types.ts: MIME types that represent
binary (base64 encoded) content. -/
def BINARY_CONTENT_TYPES : List String :=
  [ "image/png"
  , "image/jpeg"
  , "image/gif"
  , "image/bmp"
  , "image/webp"
  , "application/pdf" ]

/-- Source `JSON_CONTENT_TYPES` from src/mime-types.ts: MIME types that represent
JSON content. -/
def JSON_CONTENT_TYPES : List String :=
  [ "application/json"
  , "application/geo+json"
  , "application/vnd.jupyter.widget-view+json"
  , "application/vnd.jupyter.widget-state+json"
  , "application/vnd.plotly.v1+json"
  , "application/vnd.vega.v2+json"
  , "application/vnd.vega.v3+json"
  , "application/vnd.vega.v4+json"
  , "application/vnd.vega.v5+json"
  , "application/vnd.vegalite.v1+json"
  , "application/vnd.vegalite.v2+json"
  , "application/vnd.vegalite.v3+json"
  , "application/vnd.vegalite.v4+json"
  , "application/vnd.vegalite.v5+json"
  , "application/vnd.bokehjs_exec.v0+json"
  , "application/vnd.holoviews_exec.v0+json"
  , "application/vnd.holoviews_load.v0+json" ]

/-- Source `IMAGE_CONTENT_TYPES` from src/mime-types.ts: MIME types that can be
rendered as images. -/
def IMAGE_CONTENT_TYPES : List String :=
  [ "image/png"
  , "image/jpeg"
  , "image/gif"
  , "image/svg+xml"
  , "image/bmp"
  , "image/webp" ]

/-! ## MIME type predicates (src/mime-types.ts) -/

/-- Source `isTextMimeType` from src/mime-types.ts:
`TEXT_CONTENT_TYPES.includes(mimeType)`. -/
def isTextMimeType (mimeType : String) : Bool :=
  TEXT_CONTENT_TYPES.contains mimeType

/-- Source `isBinaryMimeType` from src/mime-types.ts:
`BINARY_CONTENT_TYPES.includes(mimeType)`. -/
def isBinaryMimeType (mimeType : String) : Bool :=
  BINARY_CONTENT_TYPES.contains mimeType

/-- Source `isJsonMimeType` from src/mime-types.ts:
`JSON_CONTENT_TYPES.includes(mimeType) || mimeType.endsWith('+json')`. -/
def isJsonMimeType (mimeType : String) : Bool :=
  JSON_CONTENT_TYPES.contains mimeType || jsEndsWith mimeType "+json"

/-- Source `isImageMimeType` from src/mime-types.ts:
`IMAGE_CONTENT_TYPES.includes(mimeType) || mimeType.startsWith('image/')`. -/
def isImageMimeType (mimeType : String) : Bool :=
  IMAGE_CONTENT_TYPES.contains mimeType || jsStartsWith mimeType "image/"

/-- Source `isWidgetMimeType` from src/mime-types.ts: equality with the widget-view
or widget-state identifier. -/
def isWidgetMimeType (mimeType : String) : Bool :=
  mimeType == "application/vnd.jupyter.widget-view+json" ||
  mimeType == "application/vnd.jupyter.widget-state+json"

/-- Source `isVisualizationMimeType` from src/mime-types.ts: prefix match against the
five visualization vendor namespaces. -/
def isVisualizationMimeType (mimeType : String) : Bool :=
  jsStartsWith mimeType "application/vnd.plotly." ||
  jsStartsWith mimeType "application/vnd.vega." ||
  jsStartsWith mimeType "application/vnd.vegalite." ||
  jsStartsWith mimeType "application/vnd.bokehjs" ||
  jsStartsWith mimeType "application/vnd.holoviews"

/-- The closed result enumeration of `getMimeTypeCategory`. -/
inductive MimeCategory : Type where
  | text
  | binary
  | json
  | image
  | widget
  | visualization
  | unknown
deriving DecidableEq, Repr

/-- Source `getMimeTypeCategory` from src/mime-types.ts: the fixed chain of
structural tests, first match wins. -/
def getMimeTypeCategory (mimeType : String) : MimeCategory :=
  if isWidgetMimeType mimeType then .widget
  else if isVisualizationMimeType mimeType then .visualization
  else if isImageMimeType mimeType then .image
  else if isJsonMimeType mimeType then .json
  else if isBinaryMimeType mimeType then .binary
  else if isTextMimeType mimeType then .text
  else .unknown

/-- The specification's presentation of the category assignment: the ordered
list of structural tests, "evaluated in this exact order (first match wins)".
Used to compare the source's if-chain against the spec's first-match rule. -/
def CATEGORY_TESTS : List ((String → Bool) × MimeCategory) :=
  [ (isWidgetMimeType, .widget)
  , (isVisualizationMimeType, .visualization)
  , (isImageMimeType, .image)
  , (isJsonMimeType, .json)
  , (isBinaryMimeType, .binary)
  , (isTextMimeType, .text) ]

/-- Category of the first matching test in `CATEGORY_TESTS`, `unknown` when
none matches (the spec's formulation of the classification). -/
def categoryByFirstMatch (mimeType : String) : MimeCategory :=
  ((CATEGORY_TESTS.find? (fun t => t.1 mimeType)).map Prod.snd).getD .unknown

/-! ## Priority table and best-representation selection (src/mime-types.ts) -/

/-- Source `MIME_TYPE_PRIORITY` from src/mime-types.ts, as an association list with
the source's (unique) keys resolved to their string values. -/
def MIME_TYPE_PRIORITY : List (String × Nat) :=
  [ ("text/html", 100)
  , ("application/vnd.jupyter.widget-view+json", 95)
  , ("application/vnd.plotly.v1+json", 90)
  , ("application/vnd.vegalite.v5+json", 88)
  , ("application/vnd.vegalite.v4+json", 87)
  , ("application/vnd.vegalite.v3+json", 86)
  , ("application/vnd.vegalite.v2+json", 85)
  , ("application/vnd.vegalite.v1+json", 84)
  , ("application/vnd.vega.v5+json", 83)
  , ("application/vnd.vega.v4+json", 82)
  , ("application/vnd.vega.v3+json", 81)
  , ("application/vnd.vega.v2+json", 80)
  , ("image/svg+xml", 75)
  , ("image/png", 70)
  , ("image/jpeg", 65)
  , ("image/webp", 64)
  , ("image/gif", 63)
  , ("image/bmp", 60)
  , ("text/markdown", 55)
  , ("text/latex", 50)
  , ("application/json", 45)
  , ("application/geo+json", 44)
  , ("application/javascript", 40)
  , ("text/plain", 10) ]

/-- Source `getMimeTypePriority` from src/mime-types.ts:
`MIME_TYPE_PRIORITY[mimeType] ?? 0`. -/
def getMimeTypePriority (mimeType : String) : Nat :=
  ((MIME_TYPE_PRIORITY.find? (fun p => p.1 == mimeType)).map Prod.snd).getD 0

/-- The reducer inside `selectBestMimeType`:
`currentPriority > bestPriority ? current : best`. -/
def selectBestStep (best current : String) : String :=
  if getMimeTypePriority current > getMimeTypePriority best then current
  else best

/-- Source `selectBestMimeType` from src/mime-types.ts: `undefined` on the empty
list, the sole element of a singleton, and otherwise the JS `reduce` of
`selectBestStep` over the list (first element as the initial accumulator). -/
def selectBestMimeType : List String → Option String
  | [] => none
  | [m] => some m
  | m :: rest => some (rest.foldl selectBestStep m)

/-! ## Payload normalization (src/mime-types.ts) -/

/-- The payload of one MIME-bundle entry: a single string, an array of string
fragments, or some other JSON-like value (opaque here). -/
inductive MimeData : Type where
  | str (s : String)
  | arr (l : List String)
  | other (j : Nat)
deriving DecidableEq, Repr

/-- Source `normalizeMimeData` from src/mime-types.ts: for text MIME types, join
array payloads with no separator (`data.join('')`); return any other payload
unchanged. -/
def normalizeMimeData (mimeType : String) (data : MimeData) : MimeData :=
  match data with
  | .arr l => if isTextMimeType mimeType then .str (String.join l) else .arr l
  | d => d

/-! ## The node model (src/types.ts)

The walker in src/transformer.ts is duck-typed: a node either carries a
`children` array (a Parent) or not (a leaf such as `code`, `markdown`, the
output nodes).  `leaf v` models a node without a `children` field and
`parent v cs` a node with one; the `Nat` label stands for all remaining
per-node payload (type tag, value, ...), which the walker never inspects. -/

inductive JNode : Type where
  | leaf (v : Nat)
  | parent (v : Nat) (children : List JNode)

/-- A visitor as in src/transformer.ts: it receives the node and, when the
node is a child, its index in the parent's children array together with the
parent; it returns `some false` to stop (`=== false` in the source), anything
else (`true` or `undefined`, and the closure's updated state) to continue.
The explicit state `σ` models the visitor closure's side effects. -/
def Visitor (σ : Type) : Type :=
  σ → JNode → Option (Nat × JNode) → σ × Option Bool

/-! ## visit (src/transformer.ts)

`visitNode` mirrors the inner recursion of `visit`: invoke the visitor,
stop the whole traversal on `false`, otherwise recurse into the children in
array order (or reverse array order when `reverse` is requested, each child
keeping its original index).  Beyond the source's boolean result the
embedding also returns the trace: the nodes on which the visitor was
invoked, in invocation order. -/

mutual

def visitNode {σ : Type} (v : Visitor σ) (rev : Bool) (n : JNode)
    (ip : Option (Nat × JNode)) (s : σ) : σ × Bool × List JNode :=
  let r := v s n ip
  if r.2 = some false then (r.1, false, [n])
  else
    match n with
    | .leaf _ => (r.1, true, [n])
    | .parent a cs =>
        let q :=
          if rev then visitForestDown v rev (JNode.parent a cs) cs 0 r.1
          else visitForestUp v rev (JNode.parent a cs) cs 0 r.1
        (q.1, q.2.1, n :: q.2.2)

/-- The children loop of `visit` for the forward index order `0, 1, ...`;
`i` is the index of the first element of `cs` in the parent's array. -/
def visitForestUp {σ : Type} (v : Visitor σ) (rev : Bool) (p : JNode)
    (cs : List JNode) (i : Nat) (s : σ) : σ × Bool × List JNode :=
  match cs with
  | [] => (s, true, [])
  | c :: rest =>
      let q := visitNode v rev c (some (i, p)) s
      if q.2.1 then
        let q2 := visitForestUp v rev p rest (i + 1) q.1
        (q2.1, q2.2.1, q.2.2 ++ q2.2.2)
      else (q.1, false, q.2.2)

/-- The children loop of `visit` for the reverse index order `n-1, ..., 0`:
the suffix after `c` (higher indices) is traversed before `c`, and a stop
inside it skips `c` and everything below, exactly as the source loop breaks. -/
def visitForestDown {σ : Type} (v : Visitor σ) (rev : Bool) (p : JNode)
    (cs : List JNode) (i : Nat) (s : σ) : σ × Bool × List JNode :=
  match cs with
  | [] => (s, true, [])
  | c :: rest =>
      let q := visitForestDown v rev p rest (i + 1) s
      if q.2.1 then
        let q2 := visitNode v rev c (some (i, p)) q.1
        (q2.1, q2.2.1, q.2.2 ++ q2.2.2)
      else q

end

/-- Source `visit` from src/transformer.ts: run `visitNode` on the root with no
index and no parent. -/
def visit {σ : Type} (v : Visitor σ) (rev : Bool) (t : JNode) (s : σ) :
    σ × Bool × List JNode :=
  visitNode v rev t none s

/-- Source `findAll` from src/transformer.ts: run `visit` with default options and a
visitor that pushes every node satisfying the predicate and always continues
(it returns no stop signal); the collected list is the result. -/
def findAll (p : JNode → Bool) (t : JNode) : List JNode :=
  (visit (fun s n _ => (if p n then s ++ [n] else s, none)) false t []).1

/-! ## Reference formulations for visit -/

/-! Depth-first pre-order enumeration of a tree (the spec's description of
the `visit` order with default options). -/
mutual

def preorder (n : JNode) : List JNode :=
  match n with
  | .leaf a => [JNode.leaf a]
  | .parent a cs => JNode.parent a cs :: preorderF cs

def preorderF (cs : List JNode) : List JNode :=
  match cs with
  | [] => []
  | c :: rest => preorder c ++ preorderF rest

end

/-! Pre-order enumeration annotated with the (index, parent) argument each
visitor invocation receives, in the traversal order of `visit` (forward or
reverse children order). -/
mutual

def preorderAnn (rev : Bool) (n : JNode) (ip : Option (Nat × JNode)) :
    List (JNode × Option (Nat × JNode)) :=
  match n with
  | .leaf a => [(JNode.leaf a, ip)]
  | .parent a cs =>
      (JNode.parent a cs, ip) ::
        (if rev then preForestDown rev (JNode.parent a cs) cs 0
         else preForestUp rev (JNode.parent a cs) cs 0)

def preForestUp (rev : Bool) (p : JNode) (cs : List JNode) (i : Nat) :
    List (JNode × Option (Nat × JNode)) :=
  match cs with
  | [] => []
  | c :: rest => preorderAnn rev c (some (i, p)) ++ preForestUp rev p rest (i + 1)

def preForestDown (rev : Bool) (p : JNode) (cs : List JNode) (i : Nat) :
    List (JNode × Option (Nat × JNode)) :=
  match cs with
  | [] => []
  | c :: rest => preForestDown rev p rest (i + 1) ++ preorderAnn rev c (some (i, p))

end

/-- Reference linear traversal: scan an annotated node listing from the left,
threading the visitor state, and stop right after the first `some false`;
returns the final state, the continue flag and the scanned prefix. -/
def scanStop {σ : Type} (v : Visitor σ) :
    List (JNode × Option (Nat × JNode)) → σ → σ × Bool × List JNode
  | [], s => (s, true, [])
  | (n, ip) :: rest, s =>
      let r := v s n ip
      if r.2 = some false then (r.1, false, [n])
      else
        let q := scanStop v rest r.1
        (q.1, q.2.1, n :: q.2.2)

/-! ## transform (src/transformer.ts)

A transformer may return a replacement node (`some`) or nothing (`none`,
the JS `undefined`, modelling `result || node`).  The source builds
`newChildren` by iterating the index list (reversed when `reverse` is
requested) and storing the transform of `children[i]` at slot
`reverse ? length-1-i : i`; for the reverse order this places the transform
of the i-th original child at slot `length-1-i`, i.e. `newChildren` is the
reverse of the pointwise-transformed children list.  The source also passes
the child index and the (in-place partially rewritten) parent object to the
transformer; the claims under verification only concern transformers that
ignore them, so the embedding's transformer takes the node alone. -/

mutual

def transformNode (f : JNode → Option JNode) (rev : Bool) (n : JNode) : JNode :=
  match n with
  | .leaf a => (f (JNode.leaf a)).getD (JNode.leaf a)
  | .parent a cs =>
      let tcs := transformForest f rev cs
      let newChildren := if rev then tcs.reverse else tcs
      let node := JNode.parent a newChildren
      (f node).getD node

def transformForest (f : JNode → Option JNode) (rev : Bool)
    (cs : List JNode) : List JNode :=
  match cs with
  | [] => []
  | c :: rest => transformNode f rev c :: transformForest f rev rest

end

/-- Source `transform` from src/transformer.ts: the top-level call on the root. -/
def transform (f : JNode → Option JNode) (rev : Bool) (t : JNode) : JNode :=
  transformNode f rev t

/-! Tree mirror: every children array reversed, recursively (reference
function for the behaviour of `transform` with `reverse` requested). -/
mutual

def mirror (n : JNode) : JNode :=
  match n with
  | .leaf a => JNode.leaf a
  | .parent a cs => JNode.parent a (mirrorForest cs).reverse

def mirrorForest (cs : List JNode) : List JNode :=
  match cs with
  | [] => []
  | c :: rest => mirror c :: mirrorForest rest

end

/-! ## filter (src/transformer.ts)

`filterNode` returns `none` when the predicate rejects the node (the node
and its whole subtree are dropped).  For a kept node carrying a children
array the source returns the fresh object `{...node, children: filtered}`;
for a kept childless node it returns the input object itself.  The embedding
pairs the resulting node with a flag that is `true` exactly when the source
returns the very same object it was given (reference identity). -/

mutual

def filterNode (p : JNode → Option (Nat × JNode) → Bool) (n : JNode)
    (ip : Option (Nat × JNode)) : Option (JNode × Bool) :=
  if p n ip then
    match n with
    | .leaf a => some (JNode.leaf a, true)
    | .parent a cs =>
        some (JNode.parent a (filterForest p (JNode.parent a cs) cs 0), false)
  else none

def filterForest (p : JNode → Option (Nat × JNode) → Bool) (par : JNode)
    (cs : List JNode) (i : Nat) : List JNode :=
  match cs with
  | [] => []
  | c :: rest =>
      match filterNode p c (some (i, par)) with
      | some rb => rb.1 :: filterForest p par rest (i + 1)
      | none => filterForest p par rest (i + 1)

end

/-- Source `filter` from src/transformer.ts: `result || tree` — a rejected root
falls back to the original tree object itself (flag `true`). -/
def filter (p : JNode → Option (Nat × JNode) → Bool) (t : JNode) :
    JNode × Bool :=
  match filterNode p t none with
  | some rb => rb
  | none => (t, true)

/-! ## Theorems about the MIME classifier and selector -/

/-- The fold inside `selectBestMimeType` returns the first element of maximal
priority of `b :: t`: some split `b :: t = l₁ ++ r :: l₂` has every element
priority-bounded by `r` and everything before `r` strictly below it. -/
theorem selectBest_foldl_spec (t : List String) : ∀ b : String,
    ∃ l₁ l₂,
      b :: t = l₁ ++ (t.foldl selectBestStep b) :: l₂ ∧
      (∀ x ∈ b :: t,
        getMimeTypePriority x ≤ getMimeTypePriority (t.foldl selectBestStep b)) ∧
      (∀ x ∈ l₁,
        getMimeTypePriority x < getMimeTypePriority (t.foldl selectBestStep b)) := by
  induction t with
  | nil =>
      intro b
      exact ⟨[], [], rfl, by simp, by simp⟩
  | cons c t ih =>
      intro b
      rw [List.foldl_cons]
      by_cases h : getMimeTypePriority c > getMimeTypePriority b
      · have hs : selectBestStep b c = c := by simp [selectBestStep, h]
        rw [hs]
        obtain ⟨l₁, l₂, heq, hle, hlt⟩ := ih c
        have hcle : getMimeTypePriority c
            ≤ getMimeTypePriority (t.foldl selectBestStep c) := hle c (by simp)
        refine ⟨b :: l₁, l₂, ?_, ?_, ?_⟩
        · rw [List.cons_append, ← heq]
        · intro x hx
          rcases List.mem_cons.mp hx with rfl | hx'
          · omega
          · exact hle x hx'
        · intro x hx
          rcases List.mem_cons.mp hx with rfl | hx'
          · omega
          · exact hlt x hx'
      · have hs : selectBestStep b c = b := by simp [selectBestStep, h]
        rw [hs]
        obtain ⟨l₁, l₂, heq, hle, hlt⟩ := ih b
        generalize hr : t.foldl selectBestStep b = r at heq hle hlt ⊢
        have hble : getMimeTypePriority b ≤ getMimeTypePriority r :=
          hle b (by simp)
        cases l₁ with
        | nil =>
            simp only [List.nil_append, List.cons.injEq] at heq
            obtain ⟨hb, hl⟩ := heq
            refine ⟨[], c :: t, ?_, ?_, by simp⟩
            · rw [List.nil_append, ← hb]
            · intro x hx
              rcases List.mem_cons.mp hx with rfl | hx'
              · exact hble
              · rcases List.mem_cons.mp hx' with rfl | hx''
                · omega
                · exact hle x (by simp [hx''])
        | cons a m =>
            simp only [List.cons_append, List.cons.injEq] at heq
            obtain ⟨hab, hl⟩ := heq
            subst hab
            have hblt : getMimeTypePriority b < getMimeTypePriority r :=
              hlt b (by simp)
            refine ⟨b :: c :: m, l₂, ?_, ?_, ?_⟩
            · rw [hl]
              simp
            · intro x hx
              rcases List.mem_cons.mp hx with rfl | hx'
              · exact hble
              · rcases List.mem_cons.mp hx' with rfl | hx''
                · omega
                · exact hle x (by simp [hx''])
            · intro x hx
              rcases List.mem_cons.mp hx with rfl | hx'
              · exact hblt
              · rcases List.mem_cons.mp hx' with rfl | hx''
                · omega
                · exact hlt x (by simp [hx''])

/-- C1: on a non-empty list `selectBestMimeType` returns an identifier of
maximal `getMimeTypePriority` score, breaking all ties (including all-zero
ties) by first occurrence in input order; on the empty list it returns the
`undefined` sentinel (`none`) and never throws. -/
theorem selectBestMimeType_first_max (l : List String) :
    match selectBestMimeType l with
    | none => l = []
    | some r =>
        ∃ l₁ l₂,
          l = l₁ ++ r :: l₂ ∧
          (∀ x ∈ l, getMimeTypePriority x ≤ getMimeTypePriority r) ∧
          (∀ x ∈ l₁, getMimeTypePriority x < getMimeTypePriority r) := by
  match l with
  | [] => simp [selectBestMimeType]
  | [m] =>
      show ∃ l₁ l₂, [m] = l₁ ++ m :: l₂ ∧ _ ∧ _
      exact ⟨[], [], by simp, by simp, by simp⟩
  | m :: c :: rest =>
      show ∃ l₁ l₂, m :: c :: rest = l₁ ++ ((c :: rest).foldl selectBestStep m) :: l₂ ∧ _ ∧ _
      exact selectBest_foldl_spec (c :: rest) m

/-- C2: `getMimeTypeCategory` agrees with the spec's first-match evaluation of
the ordered test list widget, visualization, image, json, binary, text, with
`unknown` when none matches; in particular the vendor-prefixed identifier
`application/vnd.vegalite.v5+json` is classified `visualization`, not `json`,
although its suffix `+json` does satisfy the JSON test. -/
theorem getMimeTypeCategory_eq_first_match (m : String) :
    getMimeTypeCategory m = categoryByFirstMatch m ∧
    getMimeTypeCategory "application/vnd.vegalite.v5+json"
      = MimeCategory.visualization ∧
    isJsonMimeType "application/vnd.vegalite.v5+json" = true := by
  refine ⟨?_, by decide, by decide⟩
  unfold getMimeTypeCategory categoryByFirstMatch CATEGORY_TESTS
  cases hw : isWidgetMimeType m <;> cases hv : isVisualizationMimeType m <;>
    cases hi : isImageMimeType m <;> cases hj : isJsonMimeType m <;>
      cases hb : isBinaryMimeType m <;> cases ht : isTextMimeType m <;>
        simp [List.find?, hw, hv, hi, hj, hb, ht]

/-- C4: `normalizeMimeData` joins a sequence payload with no separator exactly
for text MIME types (per the `isTextMimeType` classification test) and returns
every other payload unchanged, including sequences under non-text identifiers;
in particular `("text/plain", ["a","b","c"]) ↦ "abc"` while
`("image/png", ["a","b"])` passes through verbatim. -/
theorem normalizeMimeData_spec (m : String) (l : List String) (s : String)
    (j : Nat) :
    normalizeMimeData m (.arr l)
      = (if isTextMimeType m then .str (String.join l) else .arr l) ∧
    normalizeMimeData m (.str s) = .str s ∧
    normalizeMimeData m (.other j) = .other j ∧
    normalizeMimeData "text/plain" (.arr ["a", "b", "c"]) = .str "abc" ∧
    normalizeMimeData "image/png" (.arr ["a", "b"]) = .arr ["a", "b"] :=
  ⟨rfl, rfl, rfl, by decide, by decide⟩

/-- C10: the `binary` category is reachable only for `application/pdf`: every
other member of `BINARY_CONTENT_TYPES` has primary component `image` and is
claimed by the earlier image test. -/
theorem getMimeTypeCategory_binary_iff (m : String) :
    getMimeTypeCategory m = MimeCategory.binary ↔ m = "application/pdf" := by
  constructor
  · intro h
    unfold getMimeTypeCategory at h
    split_ifs at h with hw hv hi hj hb ht
    simp only [isBinaryMimeType, BINARY_CONTENT_TYPES, List.contains] at hb
    simp at hb
    rcases hb with rfl | rfl | rfl | rfl | rfl | rfl
    · exact absurd (by decide) hi
    · exact absurd (by decide) hi
    · exact absurd (by decide) hi
    · exact absurd (by decide) hi
    · exact absurd (by decide) hi
    · rfl
  · intro h
    subst h
    decide

end Ipynb

/-! ## Theorems about the tree walker -/

namespace Ipynb

/-- Scanning a concatenation: scan the first part; when it did not stop,
continue with the second part from the reached state and append the traces. -/
theorem scanStop_append {σ : Type} (v : Visitor σ)
    (l₁ l₂ : List (JNode × Option (Nat × JNode))) (s : σ) :
    scanStop v (l₁ ++ l₂) s =
      (if (scanStop v l₁ s).2.1 then
        ((scanStop v l₂ (scanStop v l₁ s).1).1,
         (scanStop v l₂ (scanStop v l₁ s).1).2.1,
         (scanStop v l₁ s).2.2 ++ (scanStop v l₂ (scanStop v l₁ s).1).2.2)
      else scanStop v l₁ s) := by
  induction l₁ generalizing s with
  | nil => simp [scanStop]
  | cons hd rest ih =>
      obtain ⟨n, ip⟩ := hd
      by_cases hr : (v s n ip).2 = some false
      · simp [scanStop, hr]
      · by_cases hq : (scanStop v rest (v s n ip).1).2.1 = true
        · simp [scanStop, hr, ih, hq]
        · have hq' : (scanStop v rest (v s n ip).1).2.1 = false := by
            cases hfl : (scanStop v rest (v s n ip).1).2.1
            · rfl
            · exact absurd hfl hq
          simp [scanStop, hr, ih, hq']

mutual

/-- The recursive traversal of `visit` is the linear early-stopping scan of
the annotated pre-order listing: same final state, same continue flag, same
invocation trace. -/
theorem visitNode_eq_scanStop {σ : Type} (v : Visitor σ) (rev : Bool) (n : JNode)
    (ip : Option (Nat × JNode)) (s : σ) :
    visitNode v rev n ip s = scanStop v (preorderAnn rev n ip) s := by
  cases n with
  | leaf a =>
      by_cases hr : (v s (JNode.leaf a) ip).2 = some false <;>
        simp [visitNode, preorderAnn, scanStop, hr]
  | parent a cs =>
      by_cases hr : (v s (JNode.parent a cs) ip).2 = some false
      · simp [visitNode, preorderAnn, scanStop, hr]
      · cases rev with
        | false =>
            have hf := visitForestUp_eq_scanStop v false (JNode.parent a cs) cs 0
              ((v s (JNode.parent a cs) ip).1)
            simp [visitNode, preorderAnn, scanStop, hr, hf]
        | true =>
            have hf := visitForestDown_eq_scanStop v true (JNode.parent a cs) cs 0
              ((v s (JNode.parent a cs) ip).1)
            simp [visitNode, preorderAnn, scanStop, hr, hf]

/-- Forward-order children loop against the scan of its annotated listing. -/
theorem visitForestUp_eq_scanStop {σ : Type} (v : Visitor σ) (rev : Bool)
    (p : JNode) (cs : List JNode) (i : Nat) (s : σ) :
    visitForestUp v rev p cs i s = scanStop v (preForestUp rev p cs i) s := by
  cases cs with
  | nil => simp [visitForestUp, preForestUp, scanStop]
  | cons c rest =>
      have hc := visitNode_eq_scanStop v rev c (some (i, p)) s
      have hrest := visitForestUp_eq_scanStop v rev p rest (i + 1)
        ((visitNode v rev c (some (i, p)) s).1)
      rw [preForestUp, scanStop_append, ← hc]
      by_cases hq : (visitNode v rev c (some (i, p)) s).2.1 = true
      · simp [visitForestUp, hq, hrest]
      · have hq' : (visitNode v rev c (some (i, p)) s).2.1 = false := by
          cases hfl : (visitNode v rev c (some (i, p)) s).2.1
          · rfl
          · exact absurd hfl hq
        simp [visitForestUp, hq']
        rw [← hq']

/-- Reverse-order children loop against the scan of its annotated listing. -/
theorem visitForestDown_eq_scanStop {σ : Type} (v : Visitor σ) (rev : Bool)
    (p : JNode) (cs : List JNode) (i : Nat) (s : σ) :
    visitForestDown v rev p cs i s = scanStop v (preForestDown rev p cs i) s := by
  cases cs with
  | nil => simp [visitForestDown, preForestDown, scanStop]
  | cons c rest =>
      have hrest := visitForestDown_eq_scanStop v rev p rest (i + 1) s
      have hc := visitNode_eq_scanStop v rev c (some (i, p))
        ((visitForestDown v rev p rest (i + 1) s).1)
      rw [preForestDown, scanStop_append, ← hrest]
      by_cases hq : (visitForestDown v rev p rest (i + 1) s).2.1 = true
      · simp [visitForestDown, hq, hc]
      · have hq' : (visitForestDown v rev p rest (i + 1) s).2.1 = false := by
          cases hfl : (visitForestDown v rev p rest (i + 1) s).2.1
          · rfl
          · exact absurd hfl hq
        simp [visitForestDown, hq']

end

mutual

/-- The node component of the annotated default-order listing is the plain
depth-first pre-order enumeration. -/
theorem preorderAnn_map_fst (n : JNode) (ip : Option (Nat × JNode)) :
    (preorderAnn false n ip).map Prod.fst = preorder n := by
  cases n with
  | leaf a => simp [preorderAnn, preorder]
  | parent a cs =>
      simp [preorderAnn, preorder, preForestUp_map_fst (JNode.parent a cs) cs 0]

/-- Forest version of `preorderAnn_map_fst`. -/
theorem preForestUp_map_fst (p : JNode) (cs : List JNode) (i : Nat) :
    (preForestUp false p cs i).map Prod.fst = preorderF cs := by
  cases cs with
  | nil => simp [preForestUp, preorderF]
  | cons c rest =>
      simp [preForestUp, preorderF, preorderAnn_map_fst c (some (i, p)),
        preForestUp_map_fst p rest (i + 1)]

end

/-- The collecting visitor of `findAll` never stops: scanning any listing
accumulates exactly the nodes satisfying the predicate, in listing order. -/
theorem scanStop_collect (p : JNode → Bool)
    (l : List (JNode × Option (Nat × JNode))) (s : List JNode) :
    scanStop (fun s n _ => (if p n then s ++ [n] else s, none)) l s
      = (s ++ (l.map Prod.fst).filter p, true, l.map Prod.fst) := by
  induction l generalizing s with
  | nil => simp [scanStop]
  | cons hd rest ih =>
      obtain ⟨n, ip⟩ := hd
      by_cases hp : p n <;> simp [scanStop, hp, ih, List.filter_cons]

mutual

/-- Source `transform` with the identity transformer and default options rebuilds
every node unchanged. -/
theorem transformNode_id (t : JNode) :
    transformNode (fun n => some n) false t = t := by
  cases t with
  | leaf a => simp [transformNode]
  | parent a cs => simp [transformNode, transformForest_id cs]

/-- Forest version of `transformNode_id`. -/
theorem transformForest_id (cs : List JNode) :
    transformForest (fun n => some n) false cs = cs := by
  cases cs with
  | nil => simp [transformForest]
  | cons c rest => simp [transformForest, transformNode_id c, transformForest_id rest]

end

mutual

/-- Source `transform` with the identity transformer and `reverse` requested is the
tree mirror: the final children arrays come out reversed, not restored. -/
theorem transformNode_rev_mirror (t : JNode) :
    transformNode (fun n => some n) true t = mirror t := by
  cases t with
  | leaf a => simp [transformNode, mirror]
  | parent a cs => simp [transformNode, mirror, transformForest_rev_mirror cs]

/-- Forest version of `transformNode_rev_mirror`. -/
theorem transformForest_rev_mirror (cs : List JNode) :
    transformForest (fun n => some n) true cs = mirrorForest cs := by
  cases cs with
  | nil => simp [transformForest, mirrorForest]
  | cons c rest =>
      simp [transformForest, mirrorForest, transformNode_rev_mirror c,
        transformForest_rev_mirror rest]

end

mutual

/-- Under an all-accepting predicate, `filterNode` keeps every node with its
children intact; the identity flag is `true` exactly on childless nodes (the
source returns the input object itself there, a fresh spread object on nodes
with a children array). -/
theorem filterNode_true (p : JNode → Option (Nat × JNode) → Bool)
    (hp : ∀ n ip, p n ip = true) (n : JNode) (ip : Option (Nat × JNode)) :
    filterNode p n ip
      = some (n, match n with | .leaf _ => true | .parent _ _ => false) := by
  cases n with
  | leaf a => simp [filterNode, hp]
  | parent a cs =>
      simp [filterNode, hp, filterForest_true p hp (JNode.parent a cs) cs 0]

/-- Forest version of `filterNode_true`. -/
theorem filterForest_true (p : JNode → Option (Nat × JNode) → Bool)
    (hp : ∀ n ip, p n ip = true) (par : JNode) (cs : List JNode) (i : Nat) :
    filterForest p par cs i = cs := by
  cases cs with
  | nil => simp [filterForest]
  | cons c rest =>
      simp [filterForest, filterNode_true p hp c (some (i, par)),
        filterForest_true p hp par rest (i + 1)]

end

/-- C5: `visit` equals the left-to-right early-stopping scan of the pre-order
listing (in traversal order), so the visited nodes are always a pre-order
prefix and a stop signal ends the traversal at once — no siblings and no
remaining children of any ancestor are visited afterwards; in particular a
visitor returning the stop signal on its first invocation is invoked exactly
once, on the root, for trees of every size and shape. -/
theorem visit_preorder_early_stop {σ : Type} (v : Visitor σ) (rev : Bool)
    (t : JNode) (s : σ) :
    visit v rev t s = scanStop v (preorderAnn rev t none) s ∧
    (preorderAnn false t none).map Prod.fst = preorder t ∧
    ((v s t none).2 = some false →
      visit v rev t s = ((v s t none).1, false, [t])) := by
  refine ⟨visitNode_eq_scanStop v rev t none s, preorderAnn_map_fst t none, ?_⟩
  intro h
  cases t <;> simp [visit, visitNode, h]

/-- C5 witness: the always-stopping visitor on a two-child tree is invoked
exactly once, on the root. -/
theorem visit_preorder_early_stop_witness :
    visit (σ := Unit) (fun s _ _ => (s, some false)) false
      (JNode.parent 0 [JNode.leaf 1, JNode.leaf 2]) ()
      = ((), false, [JNode.parent 0 [JNode.leaf 1, JNode.leaf 2]]) :=
  (visit_preorder_early_stop (fun s _ _ => (s, some false)) false
    (JNode.parent 0 [JNode.leaf 1, JNode.leaf 2]) ()).2.2 rfl

/-- C7: `findAll` returns exactly the nodes of the full pre-order enumeration
that satisfy the predicate, in pre-order sequence, and its traversal always
runs to completion (the continue flag of the underlying `visit` is `true`,
never an early stop). -/
theorem findAll_eq_preorder_filter (p : JNode → Bool) (t : JNode) :
    findAll p t = (preorder t).filter p ∧
    (visit (fun s n _ => (if p n then s ++ [n] else s, none)) false t []).2.1
      = true := by
  have h := visitNode_eq_scanStop
    (fun (s : List JNode) n (_ : Option (Nat × JNode)) =>
      (if p n then s ++ [n] else s, none)) false t none []
  have h2 := scanStop_collect p (preorderAnn false t none) []
  have h3 := preorderAnn_map_fst t none
  constructor
  · simp [findAll, visit, h, h2, h3]
  · simp [visit, h, h2]

/-- C8: `transform` with a transformer that returns its input unchanged and
default options produces a tree deep-equal to the input, including the order
of every children array. -/
theorem transform_identity_deep_equal (t : JNode) :
    transform (fun n => some n) false t = t :=
  transformNode_id t

/-- C3 counterexample: on the two-leaf tree, `transform` with the identity
transformer and `reverse` requested returns the children in reversed order,
not the original order the claim demands. -/
theorem transform_reverse_order_counterexample :
    transform (fun n => some n) true (JNode.parent 0 [JNode.leaf 1, JNode.leaf 2])
      = JNode.parent 0 [JNode.leaf 2, JNode.leaf 1] ∧
    JNode.parent 0 [JNode.leaf 2, JNode.leaf 1]
      ≠ JNode.parent 0 [JNode.leaf 1, JNode.leaf 2] := by
  constructor
  · simp [transform, transformNode, transformForest]
  · simp

/-- C3 amended: `transform` with the identity transformer and `reverse`
requested mirrors the tree — each node's final children sequence is the
reverse of its (recursively transformed) original sequence, because the
source stores the transform of the child at original index `i` into slot
`length-1-i` while already iterating the indices in reverse. -/
theorem transform_reverse_mirrors (t : JNode) :
    transform (fun n => some n) true t = mirror t :=
  transformNode_rev_mirror t

/-- C6 counterexample: on a childless root, `filter` with an all-accepting
predicate returns the very same object it was given (identity flag `true`),
not a fresh copy. -/
theorem filter_true_leaf_same_object :
    filter (fun _ _ => true) (JNode.leaf 0) = (JNode.leaf 0, true) := by
  simp [filter, filterNode]

/-- C6 amended: for every predicate accepting all nodes, `filter` returns a
tree deep-equal to the input (same structure and children order, the input
never mutated — the embedding is pure, as the source's filter assigns into no
existing object); the result is a fresh object whenever the root carries a
children sequence, and the very same object when the root is childless. -/
theorem filter_true_deep_equal (p : JNode → Option (Nat × JNode) → Bool)
    (hp : ∀ n ip, p n ip = true) (t : JNode) :
    (filter p t).1 = t ∧
    (filter p t).2 = (match t with | .leaf _ => true | .parent _ _ => false) := by
  have h := filterNode_true p hp t none
  cases t <;> simp [filter, h]

/-- C6 witness: the all-accepting predicate on a one-child tree gives back a
deep-equal, freshly built root. -/
theorem filter_true_deep_equal_witness :
    (filter (fun _ _ => true) (JNode.parent 0 [JNode.leaf 1])).1
      = JNode.parent 0 [JNode.leaf 1] ∧
    (filter (fun _ _ => true) (JNode.parent 0 [JNode.leaf 1])).2 = false :=
  filter_true_deep_equal (fun _ _ => true) (fun _ _ => rfl)
    (JNode.parent 0 [JNode.leaf 1])

/-- C9: when the predicate rejects the root itself, `filter` returns the
original root object unchanged (`result || tree` falls back to the input;
the identity flag records that it is the same object, never a sentinel). -/
theorem filter_rejected_root_returned (p : JNode → Option (Nat × JNode) → Bool)
    (t : JNode) (h : p t none = false) :
    filter p t = (t, true) := by
  cases t <;> simp [filter, filterNode, h]

/-- C9 witness: the all-rejecting predicate returns the original two-node
tree unchanged. -/
theorem filter_rejected_root_returned_witness :
    filter (fun _ _ => false) (JNode.parent 0 [JNode.leaf 1])
      = (JNode.parent 0 [JNode.leaf 1], true) :=
  filter_rejected_root_returned (fun _ _ => false)
    (JNode.parent 0 [JNode.leaf 1]) rfl

end Ipynb
